import Mathlib

/-!
Shallow embedding, in Lean 4, of the DICOM tag-extraction pipeline of
`app/export_dicom_tags.py` (helpers in `app/dcm_lib.py`), together with
theorems settling the specification claims about it.

Conventions of the embedding:
* Python strings are Lean `String`s; where character-level reasoning is
  needed we work on `String.data : List Char`.
* Filesystem state (directory listings, file readability, write failures)
  is passed explicitly as data, since the Python code observes it only
  through a handful of boolean questions (`is_dir`, `is_file`,
  `is_dicom`, "did this write raise?").
* Python exceptions are modelled with an explicit exception type and
  `Except`; an exception type not named in an `except` clause propagates.
-/

namespace DicomPipeline

/-! ### Value Sanitizer (`sanitize_tag`, export_dicom_tags.py lines 55-78) -/

/-- Code points of `string.punctuation`: the ASCII ranges 33-47, 58-64,
91-96 and 123-126.  Listed explicitly, in the same order as the Python
constant. -/
def punctuation_codes : List Nat :=
  [33, 34, 35, 36, 37, 38, 39, 40, 41, 42, 43, 44, 45, 46, 47,
   58, 59, 60, 61, 62, 63, 64,
   91, 92, 93, 94, 95, 96,
   123, 124, 125, 126]

/-- Code points of the whitelist `["-", "+", "_", ":", ".", "|"]` that
`sanitize_tag` removes from its `invalid` list. -/
def keep_codes : List Nat := [45, 43, 95, 58, 46, 124]

/-- `invalid = list(string.punctuation + "\t" + "\n")` followed by
`invalid.remove(keep)` for each whitelist character (each occurs exactly
once, so the removals amount to a filter). -/
def invalid_codes : List Nat :=
  (punctuation_codes ++ [9, 10]).filter (fun c => ! keep_codes.contains c)

/-- `char in invalid` test of the sanitizer's per-character loop. -/
def is_invalid (c : Char) : Bool := invalid_codes.contains c.toNat

/-- One pass of Python's `clean.replace("  ", " ")`: scan left to right,
replace each non-overlapping occurrence of two spaces by one space and
continue after the replacement. -/
def replace_double : List Char → List Char
  | [] => []
  | [c] => [c]
  | a :: b :: rest =>
    if a = ' ' ∧ b = ' ' then ' ' :: replace_double rest
    else a :: replace_double (b :: rest)

/-- The `"  " in clean` test of the sanitizer's while loop. -/
def contains_double : List Char → Bool
  | a :: b :: rest =>
    if a = ' ' ∧ b = ' ' then true else contains_double (b :: rest)
  | _ => false

/-- The while loop `while "  " in clean: clean = clean.replace("  ", " ")`,
run with explicit fuel.  Each iteration strictly shortens the list (proved
in `length_replace_double_lt`), so fuel `l.length` is always enough. -/
def collapse_spaces_fuel : Nat → List Char → List Char
  | 0, l => l
  | n + 1, l =>
    if contains_double l then collapse_spaces_fuel n (replace_double l) else l

/-- The sanitizer's space-collapsing while loop. -/
def collapse_spaces (l : List Char) : List Char :=
  collapse_spaces_fuel l.length l

/-- `sanitize_tag` (export_dicom_tags.py lines 55-78): keep the characters
not in `invalid`, then collapse runs of spaces. -/
def sanitize_tag (raw : String) : String :=
  String.mk (collapse_spaces (raw.data.filter (fun c => ! is_invalid c)))

/-! ### Lemmas about the sanitizer -/

theorem replace_double_cons_pos (rest : List Char) :
    replace_double (' ' :: ' ' :: rest) = ' ' :: replace_double rest := by
  simp [replace_double]

theorem replace_double_cons_neg (a b : Char) (rest : List Char)
    (h : ¬ (a = ' ' ∧ b = ' ')) :
    replace_double (a :: b :: rest) = a :: replace_double (b :: rest) := by
  simp [replace_double, h]

theorem contains_double_cons_neg (a b : Char) (rest : List Char)
    (h : ¬ (a = ' ' ∧ b = ' ')) :
    contains_double (a :: b :: rest) = contains_double (b :: rest) := by
  simp [contains_double, h]

theorem replace_double_sublist : ∀ l : List Char, (replace_double l).Sublist l := by
  intro l
  induction l using replace_double.induct with
  | case1 => simp [replace_double]
  | case2 c => simp [replace_double]
  | case3 a b rest h ih =>
    obtain ⟨rfl, rfl⟩ := h
    rw [replace_double_cons_pos]
    exact List.Sublist.cons₂ _ (List.Sublist.cons _ ih)
  | case4 a b rest h ih =>
    rw [replace_double_cons_neg a b rest h]
    exact List.Sublist.cons₂ _ ih

theorem contains_double_length {l : List Char} (h : contains_double l = true) :
    2 ≤ l.length := by
  match l with
  | [] => simp [contains_double] at h
  | [c] => simp [contains_double] at h
  | a :: b :: rest => simp

theorem length_replace_double_lt :
    ∀ l : List Char, contains_double l = true →
      (replace_double l).length < l.length := by
  intro l
  induction l using replace_double.induct with
  | case1 => simp [contains_double]
  | case2 c => simp [contains_double]
  | case3 a b rest h ih =>
    obtain ⟨rfl, rfl⟩ := h
    intro _
    rw [replace_double_cons_pos]
    have := (replace_double_sublist rest).length_le
    simp only [List.length_cons]
    omega
  | case4 a b rest h ih =>
    intro hcd
    rw [contains_double_cons_neg a b rest h] at hcd
    rw [replace_double_cons_neg a b rest h]
    simp only [List.length_cons]
    exact Nat.succ_lt_succ (ih hcd)

theorem collapse_spaces_fuel_sublist :
    ∀ (n : Nat) (l : List Char), (collapse_spaces_fuel n l).Sublist l := by
  intro n
  induction n with
  | zero => intro l; simp [collapse_spaces_fuel]
  | succ n ih =>
    intro l
    simp only [collapse_spaces_fuel]
    by_cases h : contains_double l = true
    · simp only [h, if_pos]
      exact (ih (replace_double l)).trans (replace_double_sublist l)
    · simp only [h]
      simp

theorem collapse_spaces_fuel_no_double :
    ∀ (n : Nat) (l : List Char), l.length ≤ n →
      contains_double (collapse_spaces_fuel n l) = false := by
  intro n
  induction n with
  | zero =>
    intro l hl
    have : l = [] := List.eq_nil_of_length_eq_zero (Nat.le_zero.mp hl)
    subst this
    simp [collapse_spaces_fuel, contains_double]
  | succ n ih =>
    intro l hl
    simp only [collapse_spaces_fuel]
    by_cases h : contains_double l = true
    · simp only [h, if_pos]
      apply ih
      have := length_replace_double_lt l h
      omega
    · simp only [h]
      simp only [Bool.not_eq_true] at h
      simp [h]

theorem collapse_spaces_fuel_of_no_double :
    ∀ (n : Nat) (l : List Char), contains_double l = false →
      collapse_spaces_fuel n l = l := by
  intro n l h
  cases n with
  | zero => simp [collapse_spaces_fuel]
  | succ n => simp [collapse_spaces_fuel, h]

theorem collapse_spaces_sublist (l : List Char) : (collapse_spaces l).Sublist l :=
  collapse_spaces_fuel_sublist l.length l

theorem collapse_spaces_no_double (l : List Char) :
    contains_double (collapse_spaces l) = false :=
  collapse_spaces_fuel_no_double l.length l (Nat.le_refl _)

theorem replace_double_count (c : Char) (hc : ¬ c = ' ') :
    ∀ l : List Char, (replace_double l).count c = l.count c := by
  intro l
  induction l using replace_double.induct with
  | case1 => simp [replace_double]
  | case2 d => simp [replace_double]
  | case3 a b rest h ih =>
    obtain ⟨rfl, rfl⟩ := h
    rw [replace_double_cons_pos]
    rw [List.count_cons, List.count_cons, List.count_cons, ih]
    have hc2 : ¬ ' ' = c := fun h => hc h.symm
    simp [hc2]
  | case4 a b rest h ih =>
    rw [replace_double_cons_neg a b rest h]
    rw [List.count_cons, List.count_cons, ih]

theorem collapse_spaces_fuel_count (c : Char) (hc : ¬ c = ' ') :
    ∀ (n : Nat) (l : List Char),
      (collapse_spaces_fuel n l).count c = l.count c := by
  intro n
  induction n with
  | zero => intro l; simp [collapse_spaces_fuel]
  | succ n ih =>
    intro l
    simp only [collapse_spaces_fuel]
    by_cases h : contains_double l = true
    · simp only [h, if_pos]
      rw [ih, replace_double_count c hc]
    · simp only [h]
      simp

theorem collapse_spaces_count (c : Char) (hc : ¬ c = ' ') (l : List Char) :
    (collapse_spaces l).count c = l.count c :=
  collapse_spaces_fuel_count c hc l.length l

theorem count_filter_of_pos {p : Char → Bool} {c : Char} (hc : p c = true) :
    ∀ l : List Char, (l.filter p).count c = l.count c := by
  intro l
  induction l with
  | nil => simp
  | cons a l ih =>
    by_cases h : p a = true
    · rw [List.filter_cons_of_pos h, List.count_cons, List.count_cons, ih]
    · have hne : ¬ a = c := by
        intro he
        subst he
        exact h hc
      rw [List.filter_cons_of_neg (by simp [h]), List.count_cons, ih]
      simp [hne]

theorem contains_eq_decide_mem (l : List Nat) (n : Nat) :
    l.contains n = decide (n ∈ l) :=
  List.elem_eq_mem n l

theorem keep_not_invalid {c : Char} (h : c.toNat ∈ keep_codes) :
    is_invalid c = false := by
  simp only [is_invalid]
  rw [contains_eq_decide_mem, decide_eq_false_iff_not]
  intro hmem
  have h2 := (List.mem_filter.mp hmem).2
  rw [contains_eq_decide_mem] at h2
  simp [h] at h2

theorem keep_not_space {c : Char} (h : c.toNat ∈ keep_codes) : ¬ c = ' ' := by
  intro he
  subst he
  simp [keep_codes] at h

theorem mem_sanitize_tag {s : String} {c : Char} (h : c ∈ (sanitize_tag s).data) :
    c ∈ s.data.filter (fun c => ! is_invalid c) := by
  simp only [sanitize_tag] at h
  exact (collapse_spaces_sublist _).subset h

/-- C6 — the sanitizer is idempotent: for every input string `s`,
`sanitize_tag (sanitize_tag s) = sanitize_tag s`. -/
theorem sanitize_tag_idempotent (s : String) :
    sanitize_tag (sanitize_tag s) = sanitize_tag s := by
  have hmem : ∀ c ∈ (sanitize_tag s).data, (! is_invalid c) = true := by
    intro c hc
    simpa using (List.mem_filter.mp (mem_sanitize_tag hc)).2
  have hfilter : (sanitize_tag s).data.filter (fun c => ! is_invalid c)
      = (sanitize_tag s).data := List.filter_eq_self.mpr hmem
  have hnd : contains_double (sanitize_tag s).data = false := by
    simp only [sanitize_tag]
    exact collapse_spaces_no_double _
  show String.mk (collapse_spaces ((sanitize_tag s).data.filter _)) = sanitize_tag s
  rw [hfilter, collapse_spaces, collapse_spaces_fuel_of_no_double _ _ hnd]

/-- C7 — sanitizer whitelist property: every occurrence of the whitelisted
characters `- + _ : . |` is preserved (same count as the input), every
other punctuation character and every tab/newline is removed, and the
output never contains two consecutive spaces. -/
theorem sanitize_tag_whitelist (s : String) :
    (∀ c : Char, c.toNat ∈ keep_codes →
        (sanitize_tag s).data.count c = s.data.count c) ∧
    (∀ c : Char, is_invalid c = true → ¬ c ∈ (sanitize_tag s).data) ∧
    contains_double (sanitize_tag s).data = false := by
  refine ⟨?_, ?_, ?_⟩
  · intro c hc
    have h1 : (! is_invalid c) = true := by rw [keep_not_invalid hc]; rfl
    simp only [sanitize_tag]
    rw [collapse_spaces_count c (keep_not_space hc), count_filter_of_pos h1]
  · intro c hc hmem
    have h2 := (List.mem_filter.mp (mem_sanitize_tag hmem)).2
    simp [hc] at h2
  · simp only [sanitize_tag]
    exact collapse_spaces_no_double _

theorem sanitize_tag_whitelist_witness :
    (('-').toNat ∈ keep_codes ∧
      (sanitize_tag (String.mk ['a', '-', ' ', ' ', ',', 'b'])).data.count '-'
        = (String.mk ['a', '-', ' ', ' ', ',', 'b']).data.count '-') ∧
    (is_invalid ',' = true ∧
      ¬ ',' ∈ (sanitize_tag (String.mk ['a', '-', ' ', ' ', ',', 'b'])).data) :=
  ⟨⟨by decide, (sanitize_tag_whitelist (String.mk ['a', '-', ' ', ' ', ',', 'b'])).1
      '-' (by decide)⟩,
   ⟨by decide, (sanitize_tag_whitelist (String.mk ['a', '-', ' ', ' ', ',', 'b'])).2.1
      ',' (by decide)⟩⟩

/-- C10 — `sanitize_tag s` is a subsequence of `s`: characters are only
dropped, never introduced or reordered; hence the output is never longer
than the input, and the empty string maps to itself. -/
theorem sanitize_tag_sublist (s : String) :
    ((sanitize_tag s).data.Sublist s.data ∧
      (sanitize_tag s).data.length ≤ s.data.length) ∧
    sanitize_tag (String.mk []) = String.mk [] := by
  have h : (sanitize_tag s).data.Sublist s.data := by
    simp only [sanitize_tag]
    exact (collapse_spaces_sublist _).trans (List.filter_sublist _)
  exact ⟨⟨h, h.length_le⟩, rfl⟩

/-! ### Transfer syntax map (`get_transfer_syntax_map`, lines 146-172)

The Python function builds a `dict` from the ten pairs below; the
pipeline always calls it with the default `include_reverse=False`, so the
optional reverse merge is not modelled.  `dict.get(key, "")` on a dict
built from distinct keys is association-list lookup with default `""`. -/

def get_transfer_syntax_map : List (String × String) :=
  [("1.2.840.10008.1.2", "ImplicitVRLittleEndian"),
   ("1.2.840.10008.1.2.1", "ExplicitVRLittleEndian"),
   ("1.2.840.10008.1.2.2", "ExplicitVRBigEndian"),
   ("1.2.840.10008.1.2.4.50", "JPEGBaseLineLossy8bit"),
   ("1.2.840.10008.1.2.4.51", "JPEGBaseLineLossy12bit"),
   ("1.2.840.10008.1.2.4.70", "JPEGLossless"),
   ("1.2.840.10008.1.2.4.80", "JPEGLSLossless"),
   ("1.2.840.10008.1.2.4.90", "JPEG2000Lossless"),
   ("1.2.840.10008.1.2.4.91", "JPEG2000Lossy"),
   ("1.2.840.10008.1.2.5", "RLELossless")]

/-- `syntax_map.get(uid, "")` of `parse_tags` (line 248). -/
def syntax_map_get (uid : String) : String :=
  match get_transfer_syntax_map.find? (fun p => p.1 == uid) with
  | some p => p.2
  | none => ""

/-- C8 — transfer-syntax resolution: the identifier
`"1.2.840.10008.1.2.1"` resolves to `"ExplicitVRLittleEndian"`, and any
identifier that is not one of the ten known keys resolves to the empty
string. -/
theorem syntax_map_get_spec :
    syntax_map_get "1.2.840.10008.1.2.1" = "ExplicitVRLittleEndian" ∧
    ∀ uid : String, ¬ uid ∈ get_transfer_syntax_map.map Prod.fst →
      syntax_map_get uid = "" := by
  constructor
  · rfl
  · intro uid h
    have hnone : get_transfer_syntax_map.find? (fun p => p.1 == uid) = none := by
      rw [List.find?_eq_none]
      intro p hp hbeq
      apply h
      rw [List.mem_map]
      exact ⟨p, hp, eq_of_beq hbeq⟩
    simp [syntax_map_get, hnone]

theorem syntax_map_get_spec_witness :
    ¬ "1.2.840.10008.9.9" ∈ get_transfer_syntax_map.map Prod.fst ∧
    syntax_map_get "1.2.840.10008.9.9" = "" :=
  ⟨by decide, syntax_map_get_spec.2 "1.2.840.10008.9.9" (by decide)⟩

/-! ### Tag parser data model (`map_tag_objects`, `init_header_map`,
`parse_tags`, export_dicom_tags.py lines 175-261)

A DICOM tag is a (group, element) pair; a pydicom dataset is modelled by
the two tag-to-value maps the code reads (`ds.file_meta` and the main
`ds` tag set).  A Python `dict` with string keys is an insertion-ordered
association list; `dict_set` is `d[k] = v` (update in place when the key
exists, append otherwise). -/

abbrev DTag := Nat × Nat

/-- `map_tag_objects` (lines 175-198): the fixed attribute map, in source
order. -/
def map_tag_objects : List (String × DTag) :=
  [("modality", (0x0008, 0x0060)),
   ("sopInstanceUid", (0x0002, 0x0003)),
   ("institution_name", (0x0008, 0x0080)),
   ("manufacturer", (0x0008, 0x0070)),
   ("manufacturer_model", (0x0008, 0x1090)),
   ("sourceAET", (0x0002, 0x0016)),
   ("station_name", (0x0008, 0x1010)),
   ("study_description", (0x0008, 0x1030)),
   ("study_date", (0x0008, 0x0020)),
   ("study_time", (0x0008, 0x0030)),
   ("transferSyntaxUid", (0x0002, 0x0010))]

/-- The hardcoded list `["sopInstanceUid", "sourceAET", "transferSyntaxUid"]`
of line 245. -/
def meta_attr_names : List String :=
  ["sopInstanceUid", "sourceAET", "transferSyntaxUid"]

/-- The derived column name of line 248. -/
def tsn_key : String := "transferSyntaxName"

/-- The slice of a pydicom dataset that `parse_tags` reads. -/
structure Dataset where
  fileMeta : List (DTag × String)
  mainTags : List (DTag × String)

/-- `tag_obj in ds` combined with `ds[tag_obj].value`. -/
def lookup_tag (l : List (DTag × String)) (t : DTag) : Option String :=
  (l.find? (fun p => p.1 == t)).map Prod.snd

/-- A Python dict with string keys and values, as an insertion-ordered
association list with distinct keys. -/
abbrev Record := List (String × String)

/-- Entry rewrite performed by an in-place dict update. -/
def set_entry (k v : String) (p : String × String) : String × String :=
  if p.1 == k then (k, v) else p

/-- `d[k] = v`: overwrite in place when `k` is present, append otherwise. -/
def dict_set (d : Record) (k v : String) : Record :=
  if d.any (fun p => p.1 == k) then d.map (set_entry k v)
  else d ++ [(k, v)]

/-- The keys of a record, in insertion order (the columns it contributes). -/
def record_keys (r : Record) : List String := r.map Prod.fst

/-- `r[k]` as an option (`none` when the key is absent). -/
def get_val (r : Record) (k : String) : Option String :=
  (r.find? (fun p => p.1 == k)).map Prod.snd

/-- `init_header_map` (lines 201-215): `{hdr: "" for hdr in headers}` over
`["filename"] + list(map_tag_objects().keys())`, then
`hdr_map["filename"] = filename` (an in-place update of the first key). -/
def init_header_map (filename : String) : Record :=
  ("filename", filename) :: map_tag_objects.map (fun p => (p.1, ""))

/-- One iteration of the `for attr, tag_obj in map_tag_objects().items()`
loop of `parse_tags` (lines 243-256). -/
def parse_step (sv : Bool) (ds : Dataset) (extract : Record)
    (p : String × DTag) : Record :=
  if meta_attr_names.contains p.1 then
    match lookup_tag ds.fileMeta p.2 with
    | some v => dict_set (dict_set extract p.1 v) tsn_key (syntax_map_get v)
    | none => extract
  else
    match lookup_tag ds.mainTags p.2 with
    | some v => dict_set extract p.1 (if sv then sanitize_tag v else v)
    | none => extract

/-- The record built for one successfully read file: the attribute loop of
`parse_tags` run over `init_header_map(src_dcm.name)`. -/
def parse_file_tags (sv : Bool) (ds : Dataset) (filename : String) : Record :=
  map_tag_objects.foldl (parse_step sv ds) (init_header_map filename)

/-- One candidate input file, as `parse_tags` observes it:
`sniffOk` is "`pydicom.misc.is_dicom` returned True (raising nothing)";
`readResult` is `some ds` when `dcmread` and the attribute loop complete
without raising, `none` when any of the caught per-file exceptions
(`OSError`, `ValueError`, `KeyError`, `InvalidDicomError`) occurs. -/
structure DFile where
  name : String
  isFile : Bool
  sniffOk : Bool
  readResult : Option Dataset

/-- `parse_tags` (lines 218-261): per-file try/except; a record is
appended only when the sniff check passes and the read succeeds; any
caught failure logs and continues with the next file. -/
def parse_tags : List DFile → Bool → List Record
  | [], _ => []
  | f :: rest, sanitize_values =>
    (if f.sniffOk then
      match f.readResult with
      | some ds => [parse_file_tags sanitize_values ds f.name]
      | none => []
     else []) ++ parse_tags rest sanitize_values

/-- Value that the attribute loop stores for attribute `p` (`none` when
the tag is absent and the default is kept): metadata attributes are
stored raw, main-tag attributes are sanitized when enabled. -/
def attr_value (sv : Bool) (ds : Dataset) (p : String × DTag) : Option String :=
  if meta_attr_names.contains p.1 then lookup_tag ds.fileMeta p.2
  else
    match lookup_tag ds.mainTags p.2 with
    | some v => some (if sv then sanitize_tag v else v)
    | none => none

/-- Does some metadata attribute of `l` have its tag present in
`ds.file_meta`?  (Exactly when the loop executes line 248 and creates the
`transferSyntaxName` key.) -/
def meta_present (ds : Dataset) (l : List (String × DTag)) : Bool :=
  l.any (fun p => meta_attr_names.contains p.1 && (lookup_tag ds.fileMeta p.2).isSome)

/-! ### Lemmas about `dict_set` and the attribute loop -/

theorem any_key_iff (r : Record) (k : String) :
    r.any (fun p => p.1 == k) = true ↔ k ∈ record_keys r := by
  simp [List.any_eq_true, record_keys, List.mem_map, beq_iff_eq]

theorem record_keys_cons (a : String × String) (r : Record) :
    record_keys (a :: r) = a.1 :: record_keys r := rfl

theorem set_entry_pos {k : String} (v : String) {p : String × String}
    (h : p.1 = k) : set_entry k v p = (k, v) := by
  simp [set_entry, h]

theorem set_entry_neg {k : String} (v : String) {p : String × String}
    (h : ¬ p.1 = k) : set_entry k v p = p := by
  simp [set_entry, h]

theorem keys_map_set (r : Record) (k v : String) :
    record_keys (r.map (set_entry k v)) = record_keys r := by
  induction r with
  | nil => rfl
  | cons a r ih =>
    rw [List.map_cons, record_keys_cons, record_keys_cons, ih]
    by_cases h : a.1 = k
    · rw [set_entry_pos v h, h]
    · rw [set_entry_neg v h]

theorem keys_dict_set_mem (r : Record) (k v : String)
    (h : k ∈ record_keys r) :
    record_keys (dict_set r k v) = record_keys r := by
  rw [dict_set, if_pos ((any_key_iff r k).mpr h)]
  exact keys_map_set r k v

theorem keys_dict_set_not_mem (r : Record) (k v : String)
    (h : ¬ k ∈ record_keys r) :
    record_keys (dict_set r k v) = record_keys r ++ [k] := by
  rw [dict_set, if_neg (fun hc => h ((any_key_iff r k).mp hc))]
  simp [record_keys]

theorem find_map_set_self (r : Record) (k v : String)
    (h : k ∈ record_keys r) :
    (r.map (set_entry k v)).find? (fun p => p.1 == k) = some (k, v) := by
  induction r with
  | nil => simp [record_keys] at h
  | cons a r ih =>
    rw [List.map_cons]
    by_cases ha : a.1 = k
    · rw [set_entry_pos v ha]
      exact List.find?_cons_of_pos _ (by simp)
    · have h2 : k ∈ record_keys r := by
        rw [record_keys_cons, List.mem_cons] at h
        rcases h with h | h
        · exact absurd h.symm ha
        · exact h
      rw [set_entry_neg v ha, List.find?_cons_of_neg _ (by simpa using ha)]
      exact ih h2

theorem find_map_set_ne (r : Record) (k v k' : String) (h : ¬ k' = k) :
    (r.map (set_entry k v)).find? (fun p => p.1 == k')
      = r.find? (fun p => p.1 == k') := by
  have hkk : ¬ k = k' := fun he => h he.symm
  induction r with
  | nil => rfl
  | cons a r ih =>
    rw [List.map_cons]
    by_cases ha : a.1 = k
    · have ha' : ¬ a.1 = k' := by rw [ha]; exact hkk
      rw [set_entry_pos v ha, List.find?_cons_of_neg _ (by simpa using hkk),
        List.find?_cons_of_neg _ (by simpa using ha')]
      exact ih
    · rw [set_entry_neg v ha]
      by_cases ha' : a.1 = k'
      · rw [List.find?_cons_of_pos _ (by simpa using ha'),
          List.find?_cons_of_pos _ (by simpa using ha')]
      · rw [List.find?_cons_of_neg _ (by simpa using ha'),
          List.find?_cons_of_neg _ (by simpa using ha')]
        exact ih

theorem get_val_dict_set_self (r : Record) (k v : String) :
    get_val (dict_set r k v) k = some v := by
  rw [dict_set]
  by_cases h : r.any (fun p => p.1 == k) = true
  · rw [if_pos h, get_val, find_map_set_self r k v ((any_key_iff r k).mp h)]
    rfl
  · rw [if_neg h, get_val, List.find?_append]
    have hnone : r.find? (fun p => p.1 == k) = none := by
      rw [List.find?_eq_none]
      intro p hp hbeq
      exact h ((List.any_eq_true).mpr ⟨p, hp, hbeq⟩)
    rw [hnone, List.find?_cons_of_pos _ (by simp)]
    rfl

theorem get_val_dict_set_ne (r : Record) (k v k' : String) (h : ¬ k' = k) :
    get_val (dict_set r k v) k' = get_val r k' := by
  rw [dict_set]
  by_cases hany : r.any (fun p => p.1 == k) = true
  · rw [if_pos hany, get_val, find_map_set_ne r k v k' h]
    rfl
  · rw [if_neg hany, get_val, List.find?_append,
      List.find?_cons_of_neg _ (by simpa using fun he => h he.symm)]
    simp [get_val]

theorem get_val_parse_step_ne (sv : Bool) (ds : Dataset) (r : Record)
    (p : String × DTag) (k : String) (hk1 : ¬ k = p.1) (hk2 : ¬ k = tsn_key) :
    get_val (parse_step sv ds r p) k = get_val r k := by
  rw [parse_step]
  by_cases hm : meta_attr_names.contains p.1 = true
  · rw [if_pos hm]
    cases h : lookup_tag ds.fileMeta p.2 with
    | none => rfl
    | some v =>
      rw [get_val_dict_set_ne _ _ _ _ hk2, get_val_dict_set_ne _ _ _ _ hk1]
  · rw [if_neg hm]
    cases h : lookup_tag ds.mainTags p.2 with
    | none => rfl
    | some v => rw [get_val_dict_set_ne _ _ _ _ hk1]

theorem get_val_parse_step_self (sv : Bool) (ds : Dataset) (r : Record)
    (p : String × DTag) (hk2 : ¬ p.1 = tsn_key) :
    get_val (parse_step sv ds r p) p.1 =
      (match attr_value sv ds p with
       | some v => some v
       | none => get_val r p.1) := by
  rw [parse_step, attr_value]
  by_cases hm : meta_attr_names.contains p.1 = true
  · rw [if_pos hm, if_pos hm]
    cases h : lookup_tag ds.fileMeta p.2 with
    | none => rfl
    | some v =>
      rw [get_val_dict_set_ne _ _ _ _ hk2, get_val_dict_set_self]
  · rw [if_neg hm, if_neg hm]
    cases h : lookup_tag ds.mainTags p.2 with
    | none => rfl
    | some v => rw [get_val_dict_set_self]

theorem get_val_foldl_skip (sv : Bool) (ds : Dataset) :
    ∀ (l : List (String × DTag)) (r : Record) (k : String),
      (∀ p ∈ l, ¬ k = p.1) → ¬ k = tsn_key →
      get_val (l.foldl (parse_step sv ds) r) k = get_val r k := by
  intro l
  induction l with
  | nil => intro r k _ _; rfl
  | cons p l ih =>
    intro r k hk hk2
    rw [List.foldl_cons,
      ih _ k (fun q hq => hk q (List.mem_cons_of_mem p hq)) hk2,
      get_val_parse_step_ne sv ds r p k (hk p (List.mem_cons_self p l)) hk2]

theorem get_val_foldl (sv : Bool) (ds : Dataset) :
    ∀ (l : List (String × DTag)) (r : Record) (k : String),
      (l.map Prod.fst).Nodup → ¬ k = tsn_key →
      get_val (l.foldl (parse_step sv ds) r) k =
        (match l.find? (fun p => p.1 == k) with
         | some p =>
           match attr_value sv ds p with
           | some v => some v
           | none => get_val r k
         | none => get_val r k) := by
  intro l
  induction l with
  | nil => intro r k _ _; rfl
  | cons p l ih =>
    intro r k hnd hk2
    rw [List.foldl_cons]
    rw [List.map_cons, List.nodup_cons] at hnd
    by_cases hp : p.1 = k
    · have htail : ∀ q ∈ l, ¬ k = q.1 := by
        intro q hq he
        apply hnd.1
        rw [hp]
        exact List.mem_map.mpr ⟨q, hq, he.symm⟩
      rw [get_val_foldl_skip sv ds l _ k htail hk2,
        List.find?_cons_of_pos _ (by simpa using hp), ← hp,
        get_val_parse_step_self sv ds r p (by rw [hp]; exact hk2)]
    · have hstep : get_val (parse_step sv ds r p) k = get_val r k :=
        get_val_parse_step_ne sv ds r p k (fun he => hp he.symm) hk2
      rw [ih _ k hnd.2 hk2, hstep,
        List.find?_cons_of_neg _ (by simpa using hp)]

theorem meta_present_cons (ds : Dataset) (p : String × DTag)
    (l : List (String × DTag)) :
    meta_present ds (p :: l) =
      ((meta_attr_names.contains p.1 && (lookup_tag ds.fileMeta p.2).isSome)
        || meta_present ds l) := by
  simp [meta_present, List.any_cons]

theorem keys_foldl_parse_step (sv : Bool) (ds : Dataset) :
    ∀ (l : List (String × DTag)) (r : Record),
      (∀ p ∈ l, p.1 ∈ record_keys r) →
      record_keys (l.foldl (parse_step sv ds) r) =
        (if tsn_key ∈ record_keys r then record_keys r
         else if meta_present ds l then record_keys r ++ [tsn_key]
         else record_keys r) := by
  intro l
  induction l with
  | nil =>
    intro r _
    have h0 : meta_present ds [] = false := rfl
    rw [List.foldl_nil, h0]
    split
    · rfl
    · rfl
  | cons p l ih =>
    intro r hin
    rw [List.foldl_cons, meta_present_cons]
    have hp := hin p (List.mem_cons_self p l)
    have hin' : ∀ q ∈ l, q.1 ∈ record_keys r :=
      fun q hq => hin q (List.mem_cons_of_mem p hq)
    by_cases hm : meta_attr_names.contains p.1 = true
    · have hpm : p.1 ∈ meta_attr_names := by simpa using hm
      rw [parse_step, if_pos hm]
      cases hlk : lookup_tag ds.fileMeta p.2 with
      | none =>
        rw [ih r hin']
        simp
      | some v =>
        have hk1 : record_keys (dict_set r p.1 v) = record_keys r :=
          keys_dict_set_mem r p.1 v hp
        by_cases htsn : tsn_key ∈ record_keys r
        · have hk2 : record_keys (dict_set (dict_set r p.1 v) tsn_key
              (syntax_map_get v)) = record_keys r := by
            rw [keys_dict_set_mem _ _ _ (by rw [hk1]; exact htsn), hk1]
          rw [ih _ (by rw [hk2]; exact hin'), hk2, if_pos htsn, if_pos htsn]
        · have hk2 : record_keys (dict_set (dict_set r p.1 v) tsn_key
              (syntax_map_get v)) = record_keys r ++ [tsn_key] := by
            rw [keys_dict_set_not_mem _ _ _ (by rw [hk1]; exact htsn), hk1]
          have hin2 : ∀ q ∈ l, q.1 ∈ record_keys (dict_set (dict_set r p.1 v)
              tsn_key (syntax_map_get v)) := by
            intro q hq
            rw [hk2]
            exact List.mem_append_left _ (hin' q hq)
          rw [ih _ hin2, hk2, if_neg htsn]
          have htsn2 : tsn_key ∈ record_keys r ++ [tsn_key] :=
            List.mem_append_right _ (List.mem_singleton.mpr rfl)
          rw [if_pos htsn2]
          simp [hpm]
    · have hpm : ¬ p.1 ∈ meta_attr_names := by simpa using hm
      rw [parse_step, if_neg hm]
      cases hlk : lookup_tag ds.mainTags p.2 with
      | none =>
        rw [ih r hin']
        simp [hpm]
      | some v =>
        have hk1 : record_keys (dict_set r p.1 (if sv then sanitize_tag v else v))
            = record_keys r := keys_dict_set_mem r p.1 _ hp
        rw [ih _ (by rw [hk1]; exact hin'), hk1]
        simp [hpm]

theorem find?_eq_of_mem_nodup {l : List (String × DTag)} {k : String}
    {tg : DTag} (hmem : (k, tg) ∈ l) (hnd : (l.map Prod.fst).Nodup) :
    l.find? (fun p => p.1 == k) = some (k, tg) := by
  induction l with
  | nil => cases hmem
  | cons a l ih =>
    rw [List.map_cons, List.nodup_cons] at hnd
    rcases List.mem_cons.mp hmem with he | hmem'
    · rw [← he]
      exact List.find?_cons_of_pos _ (by simp)
    · have ha : ¬ a.1 = k := by
        intro he
        apply hnd.1
        rw [he]
        exact List.mem_map.mpr ⟨(k, tg), hmem', rfl⟩
      rw [List.find?_cons_of_neg _ (by simpa using ha)]
      exact ih hmem' hnd.2

theorem find_blank {l : List (String × DTag)} {k : String}
    (h : k ∈ l.map Prod.fst) :
    (l.map (fun p => (p.1, ""))).find? (fun q => q.1 == k) = some (k, "") := by
  induction l with
  | nil => cases h
  | cons a l ih =>
    rw [List.map_cons, List.mem_cons] at h
    rw [List.map_cons]
    by_cases ha : a.1 = k
    · rw [List.find?_cons_of_pos _ (by simpa using ha), ha]
    · rcases h with h | h
      · exact absurd h.symm ha
      · rw [List.find?_cons_of_neg _ (by simpa using ha)]
        exact ih h

theorem get_val_init_header_map (fn : String) {k : String}
    (hmem : k ∈ map_tag_objects.map Prod.fst) :
    get_val (init_header_map fn) k = some "" := by
  have hfn : ¬ ("filename" : String) = k := by
    intro he
    rw [← he] at hmem
    revert hmem
    decide
  rw [init_header_map, get_val,
    List.find?_cons_of_neg _ (by simpa using hfn), find_blank hmem]
  rfl

/-- C3 (corrected) — every record built by the attribute loop has the
twelve keys `["filename", <the eleven attribute names in map order>]`, in
that fixed order, and a main-tag or metadata attribute whose tag is absent
from the file keeps the empty-string default; but the
`"transferSyntaxName"` key is appended (at the end) only when at least one
of the three metadata tags is present in `file_meta` — it is NOT present
in every record.  (`extract_date` is added later, by the tabulator.) -/
theorem parse_record_columns (sv : Bool) (ds : Dataset) (fn : String) :
    (record_keys (parse_file_tags sv ds fn) =
      ("filename" :: map_tag_objects.map Prod.fst) ++
        (if meta_present ds map_tag_objects then [tsn_key] else [])) ∧
    (∀ k tg, (k, tg) ∈ map_tag_objects → meta_attr_names.contains k = false →
      lookup_tag ds.mainTags tg = none →
      get_val (parse_file_tags sv ds fn) k = some "") ∧
    (∀ k tg, (k, tg) ∈ map_tag_objects → meta_attr_names.contains k = true →
      lookup_tag ds.fileMeta tg = none →
      get_val (parse_file_tags sv ds fn) k = some "") := by
  have hkeys0 : record_keys (init_header_map fn)
      = "filename" :: map_tag_objects.map Prod.fst := rfl
  refine ⟨?_, ?_, ?_⟩
  · rw [parse_file_tags,
      keys_foldl_parse_step sv ds map_tag_objects (init_header_map fn) ?hin]
    case hin =>
      intro p hp
      rw [hkeys0, List.mem_cons]
      exact Or.inr (List.mem_map.mpr ⟨p, hp, rfl⟩)
    rw [hkeys0]
    have htsn : ¬ tsn_key ∈ ("filename" :: map_tag_objects.map Prod.fst) := by
      decide
    rw [if_neg htsn]
    split
    · rfl
    · simp
  · intro k tg hmem hmf hlk
    have hkmem : k ∈ map_tag_objects.map Prod.fst :=
      List.mem_map.mpr ⟨(k, tg), hmem, rfl⟩
    have hktsn : ¬ k = tsn_key := by
      intro he
      rw [he] at hkmem
      revert hkmem
      decide
    rw [parse_file_tags, get_val_foldl sv ds map_tag_objects _ k (by decide) hktsn,
      find?_eq_of_mem_nodup hmem (by decide)]
    have hav : attr_value sv ds (k, tg) = none := by
      rw [attr_value]
      simp only [hmf]
      rw [if_neg (by simp), hlk]
    change (match attr_value sv ds (k, tg) with
      | some v => some v
      | none => get_val (init_header_map fn) k) = some ""
    rw [hav]
    exact get_val_init_header_map fn hkmem
  · intro k tg hmem hmt hlk
    have hkmem : k ∈ map_tag_objects.map Prod.fst :=
      List.mem_map.mpr ⟨(k, tg), hmem, rfl⟩
    have hktsn : ¬ k = tsn_key := by
      intro he
      rw [he] at hkmem
      revert hkmem
      decide
    rw [parse_file_tags, get_val_foldl sv ds map_tag_objects _ k (by decide) hktsn,
      find?_eq_of_mem_nodup hmem (by decide)]
    have hav : attr_value sv ds (k, tg) = none := by
      rw [attr_value]
      rw [if_pos (by simp only [hmt]), hlk]
    change (match attr_value sv ds (k, tg) with
      | some v => some v
      | none => get_val (init_header_map fn) k) = some ""
    rw [hav]
    exact get_val_init_header_map fn hkmem

theorem parse_record_columns_witness :
    (("modality", ((0x0008 : Nat), (0x0060 : Nat))) ∈ map_tag_objects ∧
      meta_attr_names.contains "modality" = false ∧
      lookup_tag (Dataset.mk [] []).mainTags (0x0008, 0x0060) = none ∧
      get_val (parse_file_tags false (Dataset.mk [] []) "a.dcm") "modality"
        = some "") ∧
    (("sourceAET", ((0x0002 : Nat), (0x0016 : Nat))) ∈ map_tag_objects ∧
      meta_attr_names.contains "sourceAET" = true ∧
      lookup_tag (Dataset.mk [] []).fileMeta (0x0002, 0x0016) = none ∧
      get_val (parse_file_tags false (Dataset.mk [] []) "a.dcm") "sourceAET"
        = some "") :=
  ⟨⟨by decide, by decide, rfl,
    (parse_record_columns false (Dataset.mk [] []) "a.dcm").2.1 "modality"
      (0x0008, 0x0060) (by decide) (by decide) rfl⟩,
   ⟨by decide, by decide, rfl,
    (parse_record_columns false (Dataset.mk [] []) "a.dcm").2.2 "sourceAET"
      (0x0002, 0x0016) (by decide) (by decide) rfl⟩⟩

/-- C3 counterexample — for a file whose `file_meta` contains none of the
three metadata tags, the record produced by the parser does NOT contain
the `"transferSyntaxName"` key at all (the claim says the key is present,
possibly empty, in every record). -/
theorem parse_record_tsn_counterexample :
    ¬ tsn_key ∈ record_keys (parse_file_tags false (Dataset.mk [] []) "empty.dcm") := by
  decide

/-- C4 (corrected) — the sanitizer's scope: a main-tag attribute value is
stored as `sanitize_tag v` when `sanitize_values = True` and as the raw
`v` when disabled, but the three metadata attributes (`sopInstanceUid`,
`sourceAET`, `transferSyntaxUid`) are always stored raw, sanitization
enabled or not — the sanitizer is NOT applied to them. -/
theorem parse_sanitize_scope (sv : Bool) (ds : Dataset) (fn : String)
    (k : String) (tg : DTag) (hmem : (k, tg) ∈ map_tag_objects) :
    (meta_attr_names.contains k = true →
      ∀ v, lookup_tag ds.fileMeta tg = some v →
        get_val (parse_file_tags sv ds fn) k = some v) ∧
    (meta_attr_names.contains k = false →
      ∀ v, lookup_tag ds.mainTags tg = some v →
        get_val (parse_file_tags sv ds fn) k
          = some (if sv then sanitize_tag v else v)) := by
  have hkmem : k ∈ map_tag_objects.map Prod.fst :=
    List.mem_map.mpr ⟨(k, tg), hmem, rfl⟩
  have hktsn : ¬ k = tsn_key := by
    intro he
    rw [he] at hkmem
    revert hkmem
    decide
  constructor
  · intro hmt v hlk
    rw [parse_file_tags, get_val_foldl sv ds map_tag_objects _ k (by decide) hktsn,
      find?_eq_of_mem_nodup hmem (by decide)]
    have hav : attr_value sv ds (k, tg) = some v := by
      rw [attr_value, if_pos (by simp only [hmt]), hlk]
    change (match attr_value sv ds (k, tg) with
      | some v => some v
      | none => get_val (init_header_map fn) k) = some v
    rw [hav]
  · intro hmf v hlk
    rw [parse_file_tags, get_val_foldl sv ds map_tag_objects _ k (by decide) hktsn,
      find?_eq_of_mem_nodup hmem (by decide)]
    have hav : attr_value sv ds (k, tg)
        = some (if sv then sanitize_tag v else v) := by
      rw [attr_value]
      simp only [hmf]
      rw [if_neg (by simp), hlk]
    change (match attr_value sv ds (k, tg) with
      | some v => some v
      | none => get_val (init_header_map fn) k)
        = some (if sv then sanitize_tag v else v)
    rw [hav]

theorem parse_sanitize_scope_witness :
    (("sourceAET", ((0x0002 : Nat), (0x0016 : Nat))) ∈ map_tag_objects ∧
      meta_attr_names.contains "sourceAET" = true ∧
      lookup_tag [(((0x0002 : Nat), (0x0016 : Nat)), "AE TITLE")] (0x0002, 0x0016)
        = some "AE TITLE" ∧
      get_val (parse_file_tags true
          (Dataset.mk [(((0x0002 : Nat), (0x0016 : Nat)), "AE TITLE")] []) "f.dcm")
        "sourceAET" = some "AE TITLE") ∧
    (("modality", ((0x0008 : Nat), (0x0060 : Nat))) ∈ map_tag_objects ∧
      meta_attr_names.contains "modality" = false ∧
      get_val (parse_file_tags true
          (Dataset.mk [] [(((0x0008 : Nat), (0x0060 : Nat)), "C#T")]) "f.dcm")
        "modality" = some (if true then sanitize_tag "C#T" else "C#T")) :=
  ⟨⟨by decide, by decide, rfl,
    ((parse_sanitize_scope true
        (Dataset.mk [(((0x0002 : Nat), (0x0016 : Nat)), "AE TITLE")] []) "f.dcm"
        "sourceAET" (0x0002, 0x0016) (by decide)).1 (by decide) "AE TITLE" rfl)⟩,
   ⟨by decide, by decide,
    ((parse_sanitize_scope true
        (Dataset.mk [] [(((0x0008 : Nat), (0x0060 : Nat)), "C#T")]) "f.dcm"
        "modality" (0x0008, 0x0060) (by decide)).2 (by decide) "C#T" rfl)⟩⟩

/-- C4 counterexample — with sanitization enabled and a metadata value
containing a blacklisted character, the stored metadata value is the raw
value, not its sanitization: the claim that the sanitizer is applied to
the three metadata attributes is false. -/
theorem parse_meta_unsanitized_counterexample :
    ¬ get_val (parse_file_tags true
        (Dataset.mk [(((0x0002 : Nat), (0x0010 : Nat)), "1.2#bad")] []) "f.dcm")
        "transferSyntaxUid"
      = some (sanitize_tag "1.2#bad") := by
  decide

/-- C5 (corrected) — the number of records returned by `parse_tags` equals
the number of files that pass the format-sniff check AND whose read
succeeds; a file failing the sniff check or raising a per-file read error
contributes no record and leaves the processing of the other files
unchanged. -/
theorem parse_tags_record_count (files : List DFile) (sv : Bool) :
    ((parse_tags files sv).length =
      (files.filter (fun f => f.sniffOk && f.readResult.isSome)).length) ∧
    (∀ (f : DFile) (rest : List DFile),
      (f.sniffOk && f.readResult.isSome) = false →
      parse_tags (f :: rest) sv = parse_tags rest sv) := by
  constructor
  · induction files with
    | nil => rfl
    | cons f rest ih =>
      rw [parse_tags]
      by_cases hs : f.sniffOk = true
      · cases hr : f.readResult with
        | some ds =>
          rw [if_pos hs, List.filter_cons_of_pos (by simp [hs, hr])]
          simp [ih]
        | none =>
          rw [if_pos hs, List.filter_cons_of_neg (by simp [hs, hr])]
          simpa using ih
      · rw [if_neg hs, List.filter_cons_of_neg (by simp [hs])]
        simpa using ih
  · intro f rest hfail
    rw [parse_tags]
    by_cases hs : f.sniffOk = true
    · cases hr : f.readResult with
      | some ds =>
        rw [hs, hr] at hfail
        simp at hfail
      | none =>
        rw [if_pos hs]
        exact List.nil_append _
    · rw [if_neg hs]
      exact List.nil_append _

theorem parse_tags_record_count_witness :
    ((DFile.mk "bad.dcm" true true none).sniffOk &&
        (DFile.mk "bad.dcm" true true none).readResult.isSome) = false ∧
    parse_tags [DFile.mk "bad.dcm" true true none,
        DFile.mk "good.dcm" true true (some (Dataset.mk [] []))] false
      = parse_tags [DFile.mk "good.dcm" true true (some (Dataset.mk [] []))] false :=
  ⟨by decide,
   (parse_tags_record_count [] false).2 (DFile.mk "bad.dcm" true true none)
     [DFile.mk "good.dcm" true true (some (Dataset.mk [] []))] (by decide)⟩

/-- C5 counterexample — a file that passes the format-sniff check but
whose read raises a per-file error contributes no record, so the record
count can be strictly below the number of files passing the sniff check:
the claim's equality with "files that pass the format-sniff check" is
false. -/
theorem parse_tags_sniff_count_counterexample :
    ¬ (parse_tags [DFile.mk "bad.dcm" true true none] false).length
      = (([DFile.mk "bad.dcm" true true none] : List DFile).filter
          (fun f => f.sniffOk)).length := by
  decide

/-! ### File discovery (`find_dicom`, export_dicom_tags.py lines 24-52)

The filesystem is passed as data: whether the source folder is a
directory, its direct children (what `glob` yields) and the children of
its subfolders (the extra matches of `rglob`).  `sorted()` on
`pathlib.Path` objects under a common parent is lexicographic comparison
of the file names by code point, modelled by `lexLe`. -/

/-- Lexicographic code-point comparison of two strings' character lists. -/
def lexLe : List Char → List Char → Bool
  | [], _ => true
  | _ :: _, [] => false
  | a :: as, b :: bs =>
    if a.toNat < b.toNat then true
    else if b.toNat < a.toNat then false
    else lexLe as bs

structure FS where
  isDir : Bool
  entries : List DFile
  subEntries : List DFile

/-- The allowed extension selectors of line 41. -/
def allowed_exts : List String := [".dcm", ".dicom", ".gz", ".nii"]

/-- Path ordering used by `sorted(...)` in `find_dicom`. -/
def name_le (a b : DFile) : Bool := lexLe a.name.data b.name.data

/-- `file_ext.lower()`. -/
def to_lower (s : String) : String := String.mk (s.data.map Char.toLower)

/-- "name matches the glob pattern `*{pat}`": the name ends with `pat`. -/
def ends_with (name pat : String) : Bool :=
  decide (pat.data.length ≤ name.data.length) &&
    (name.data.drop (name.data.length - pat.data.length) == pat.data)

/-- `find_dicom` (lines 24-52): guard on `src_folder.is_dir()` and the
lower-cased extension; glob the matching names (the pattern `*{file_ext}`
means "name ends with the selector"), sort, keep regular files.
`p.absolute()` is the identity here since entries already carry their
full name. -/
def find_dicom (fs : FS) (file_ext : String) (include_recursive : Bool) :
    List DFile :=
  if fs.isDir && allowed_exts.contains (to_lower file_ext) then
    (((if include_recursive then fs.entries ++ fs.subEntries
       else fs.entries).filter
        (fun e => ends_with e.name file_ext)).mergeSort name_le).filter
      (fun e => e.isFile)
  else []

theorem lexLe_total : ∀ x y : List Char, (lexLe x y || lexLe y x) = true := by
  intro x
  induction x with
  | nil => intro y; simp [lexLe]
  | cons a as ih =>
    intro y
    cases y with
    | nil => simp [lexLe]
    | cons b bs =>
      simp only [lexLe]
      by_cases h1 : a.toNat < b.toNat
      · simp [h1]
      · by_cases h2 : b.toNat < a.toNat
        · simp [h1, h2]
        · simp [h1, h2, ih bs]

theorem lexLe_trans : ∀ x y z : List Char,
    lexLe x y = true → lexLe y z = true → lexLe x z = true := by
  intro x
  induction x with
  | nil => intro y z _ _; rfl
  | cons a as ih =>
    intro y z hxy hyz
    cases y with
    | nil => simp [lexLe] at hxy
    | cons b bs =>
      cases z with
      | nil => simp [lexLe] at hyz
      | cons c cs =>
        simp only [lexLe] at hxy hyz ⊢
        by_cases hab : a.toNat < b.toNat
        · by_cases hbc : b.toNat < c.toNat
          · simp [show a.toNat < c.toNat by omega]
          · by_cases hcb : c.toNat < b.toNat
            · simp [hbc, hcb] at hyz
            · simp [show a.toNat < c.toNat by omega]
        · by_cases hba : b.toNat < a.toNat
          · simp [hab, hba] at hxy
          · simp only [if_neg hab, if_neg hba] at hxy
            by_cases hbc : b.toNat < c.toNat
            · simp [show a.toNat < c.toNat by omega]
            · by_cases hcb : c.toNat < b.toNat
              · simp [hbc, hcb] at hyz
              · simp only [if_neg hbc, if_neg hcb] at hyz
                have hac1 : ¬ a.toNat < c.toNat := by omega
                have hac2 : ¬ c.toNat < a.toNat := by omega
                simp only [if_neg hac1, if_neg hac2]
                exact ih bs cs hxy hyz

theorem name_le_trans (a b c : DFile) :
    name_le a b → name_le b c → name_le a c :=
  fun hab hbc => lexLe_trans _ _ _ hab hbc

theorem name_le_total (a b : DFile) : (name_le a b || name_le b a) = true :=
  lexLe_total _ _

/-- C9 — file discovery returns the matching regular files sorted by
name; when the source folder is not a directory or the (lower-cased)
extension selector is not one of `.dcm`, `.dicom`, `.gz`, `.nii`, the
result is the empty list (and, the function being total, no error is
raised).  Conjuncts: (1) the guard, (2) the output is sorted, (3) every
output entry is a regular file whose name ends with the selector, (4)
every such candidate entry appears in the output. -/
theorem find_dicom_spec (fs : FS) (file_ext : String) (incl : Bool) :
    ((fs.isDir = false ∨ allowed_exts.contains (to_lower file_ext) = false) →
      find_dicom fs file_ext incl = []) ∧
    List.Pairwise (fun a b => name_le a b = true) (find_dicom fs file_ext incl) ∧
    (∀ e ∈ find_dicom fs file_ext incl,
      e.isFile = true ∧ ends_with e.name file_ext = true) ∧
    (fs.isDir = true → allowed_exts.contains (to_lower file_ext) = true →
      ∀ e ∈ (if incl then fs.entries ++ fs.subEntries else fs.entries),
        ends_with e.name file_ext = true → e.isFile = true →
        e ∈ find_dicom fs file_ext incl) := by
  refine ⟨?_, ?_, ?_, ?_⟩
  · intro h
    rw [find_dicom, if_neg]
    rcases h with h | h
    · rw [h]
      simp
    · rw [h]
      simp
  · rw [find_dicom]
    split
    · apply List.Pairwise.sublist (List.filter_sublist _)
      exact List.sorted_mergeSort name_le_trans name_le_total _
    · exact List.Pairwise.nil
  · intro e he
    rw [find_dicom] at he
    split at he
    · have h1 := List.mem_filter.mp he
      have h2 := List.mem_mergeSort.mp h1.1
      have h3 := List.mem_filter.mp h2
      exact ⟨h1.2, h3.2⟩
    · cases he
  · intro hdir hext e he hends hfile
    rw [find_dicom, if_pos (by rw [hdir, hext]; rfl)]
    exact List.mem_filter.mpr
      ⟨List.mem_mergeSort.mpr (List.mem_filter.mpr ⟨he, hends⟩), hfile⟩

theorem find_dicom_spec_witness :
    ((FS.mk false [] []).isDir = false ∧
      find_dicom (FS.mk false [] []) ".dcm" false = []) ∧
    ((FS.mk true [DFile.mk "a.dcm" true true none] []).isDir = true ∧
      allowed_exts.contains (to_lower ".dcm") = true ∧
      ends_with "a.dcm" ".dcm" = true ∧
      DFile.mk "a.dcm" true true none ∈
        find_dicom (FS.mk true [DFile.mk "a.dcm" true true none] [])
          ".dcm" false) :=
  ⟨⟨rfl, (find_dicom_spec (FS.mk false [] []) ".dcm" false).1 (Or.inl rfl)⟩,
   ⟨rfl, by decide, by decide,
    (find_dicom_spec (FS.mk true [DFile.mk "a.dcm" true true none] [])
        ".dcm" false).2.2.2 rfl (by decide)
      (DFile.mk "a.dcm" true true none) (by simp) (by decide) rfl⟩⟩

/-! ### Tabulator and persistence writer (`extract_to_df`,
`write_to_file`, `run_pipeline`, export_dicom_tags.py lines 264-372)

Python exceptions are explicit values; `caught_by_writer` is the
`except (PermissionError, ValueError, pd.errors.DtypeWarning)` tuple of
`write_to_file` (line 350).  Ambient write failures (whether `df.to_json`
or `df.to_csv` raise, and whether the files they produce are non-empty)
are inputs, since they depend only on the filesystem. -/

inductive PyExc
  | attributeError
  | unboundLocalError
  | permissionError
  | valueError
  | dtypeWarning
  | osError
  deriving DecidableEq

/-- The exception classes named in `write_to_file`'s `except` clause. -/
def caught_by_writer : PyExc → Bool
  | .permissionError => true
  | .valueError => true
  | .dtypeWarning => true
  | _ => false

/-- The tabulated data (`pd.DataFrame` built from the record list). -/
abbrev DF := List Record

/-- `extract_to_df` (lines 264-302): parse with the default
`sanitize_values=False`; when at least one record exists, build the frame
and stamp every row with `extract_date = now`; otherwise fall through and
return `None`.  (The pandas `study_date`/`study_time` dtype coercions
only rewrite values inside those two columns and are not needed by any
claim, so they are not modelled.) -/
def extract_to_df (dicom_paths : List DFile) (now : String) : Option DF :=
  let tag_dumps := parse_tags dicom_paths false
  if tag_dumps.length > 0 then
    some (tag_dumps.map (fun r => dict_set r "extract_date" now))
  else none

/-- Ambient behaviour of the two write calls in `write_to_file`. -/
structure WriteEnv where
  jsonExc : Option PyExc
  jsonNonEmpty : Bool
  csvExc : Option PyExc
  csvNonEmpty : Bool

/-- Result of `write_to_file`: the returned value (or the escaping
exception) and whether each output artifact exists afterwards. -/
structure WriteOutcome where
  ret : Except PyExc Bool
  jsonArtifact : Bool
  csvArtifact : Bool

/-- `write_to_file` (lines 305-352), with Python's name-resolution rules
made explicit:
* `df = None` (the zero-record case): `df.to_json(...)` raises
  `AttributeError`, which is not in the `except` tuple and escapes;
* an exception in `df.to_json` that IS in the tuple reaches the handler,
  but the handler's log message evaluates `limit_path(path=csv_path)` and
  `csv_path` is assigned only later (line 333), so the handler itself
  raises `UnboundLocalError`, which escapes;
* an exception in `df.to_csv` that is in the tuple is caught and logged
  (`csv_path` is bound by then) and `is_csv_saved and is_json_saved`
  — i.e. `False` — is returned;
* with no exception, both artifacts are (re)written and the returned
  boolean is "both files exist with nonzero size". -/
def write_to_file (df : Option DF) (env : WriteEnv) : WriteOutcome :=
  match df with
  | none => WriteOutcome.mk (Except.error PyExc.attributeError) false false
  | some _ =>
    match env.jsonExc with
    | some e =>
      if caught_by_writer e then
        WriteOutcome.mk (Except.error PyExc.unboundLocalError) false false
      else WriteOutcome.mk (Except.error e) false false
    | none =>
      match env.csvExc with
      | some e =>
        if caught_by_writer e then
          WriteOutcome.mk (Except.ok false) true false
        else WriteOutcome.mk (Except.error e) true false
      | none =>
        WriteOutcome.mk (Except.ok (env.csvNonEmpty && env.jsonNonEmpty))
          true true

/-- `run_pipeline` (lines 355-372) up to the write stage: discover,
extract, write.  An exception escaping `write_to_file` propagates out of
`run_pipeline` (aborting before the tag-dump stage, which no claim
touches); otherwise the pipeline finishes.  The triple records the
outcome and which output artifacts exist. -/
def run_pipeline (fs : FS) (env : WriteEnv) (now : String) :
    Except PyExc Unit × Bool × Bool :=
  let dicom_paths := find_dicom fs ".dcm" false
  let df := extract_to_df dicom_paths now
  let wr := write_to_file df env
  match wr.ret with
  | Except.error e => (Except.error e, wr.jsonArtifact, wr.csvArtifact)
  | Except.ok _ => (Except.ok (), wr.jsonArtifact, wr.csvArtifact)

/-- C1 (code bug) — when discovery/parsing yields zero records,
`extract_to_df` falls through to `return None` and `run_pipeline` passes
`df=None` straight to `write_to_file`, whose `df.to_json(...)` raises
`AttributeError` — an exception class that is NOT in the writer's
`except` tuple.  The run therefore terminates with an uncaught fatal
error (no artifacts are produced), instead of the no-op-with-notice the
claim describes. -/
theorem run_pipeline_empty_attribute_error (fs : FS) (env : WriteEnv)
    (now : String)
    (h : parse_tags (find_dicom fs ".dcm" false) false = []) :
    run_pipeline fs env now
      = (Except.error PyExc.attributeError, false, false) := by
  simp only [run_pipeline, extract_to_df, h]
  rfl

unseal List.merge List.mergeSort in
theorem run_pipeline_empty_attribute_error_witness :
    parse_tags (find_dicom (FS.mk true [] []) ".dcm" false) false = [] ∧
    run_pipeline (FS.mk true [] []) (WriteEnv.mk none true none true)
        "2024-01-01 00:00:00"
      = (Except.error PyExc.attributeError, false, false) :=
  ⟨by decide, run_pipeline_empty_attribute_error (FS.mk true [] [])
    (WriteEnv.mk none true none true) "2024-01-01 00:00:00" (by decide)⟩

/-- C2 (code bug) — a `PermissionError` raised while writing the JSON
file is matched by the `except` tuple, but the handler's log line
evaluates `limit_path(path=csv_path)` and `csv_path` is only assigned
later in the `try` block, so the handler raises `UnboundLocalError`,
which escapes `write_to_file` instead of the claimed caught-logged-and-
return-False behaviour. -/
theorem write_to_file_json_permission_crash :
    write_to_file (some [[("filename", "a.dcm")]])
        (WriteEnv.mk (some PyExc.permissionError) false none false)
      = WriteOutcome.mk (Except.error PyExc.unboundLocalError) false false :=
  rfl

end DicomPipeline
